import Mathlib

/-!
Shallow embedding of the connection-resilience and bounded-concurrency core of
the `super-ftp` library (`src/src/adapters/base-adapter.ts`,
`src/src/adapters/sftp-adapter.ts`), together with theorems settling the
specification claims about it.

Asynchronous operations are modelled by supplying the outcome of each external
invocation (the n-th call of `operation()` / `connect()` / the transport
primitive) as a function or value of type `Except FtpError _`; sleeps are
recorded as the list of delay durations requested.  The batch engine is
modelled as a deterministic discrete-event simulation: each admitted task has a
completion time, and an `await` point completes the earliest-finishing tasks.
-/

namespace SuperFtp

/-- A JS `Error` value as seen by the resilience layer: its `message` property
(`none` when absent) and its `String(error)` rendering. -/
structure FtpError where
  message : Option String
  str : String
deriving DecidableEq, Repr

/-- `new Error(m)`: message `m`, and `String(error)` renders as `Error: m`. -/
def mkError (m : String) : FtpError :=
  ⟨some m, "Error: " ++ m⟩

/-- JS `String.prototype.toLowerCase` on the ASCII vocabulary in use,
character by character. -/
def lowerStr (s : String) : String :=
  String.mk (s.toList.map Char.toLower)

/-- JS `String.prototype.includes`: substring containment. -/
def includes (hay needle : String) : Bool :=
  decide (needle.toList <:+: hay.toList)

/-- The connection-state and policy fields of `BaseAdapter`
(base-adapter.ts:159-167).  `lastActivity` is an observability timestamp with
no influence on control flow and is not modelled. -/
structure ConnState where
  connected : Bool
  hasConnectedBefore : Bool
  autoReconnect : Bool
  maxReconnectAttempts : Nat
  reconnectDelay : Nat
  maxRetries : Nat
  retryDelay : Nat
  retryBackoffMultiplier : Nat
deriving DecidableEq, Repr

/-- The message text classified by `isRetryableError`:
`(error.message || String(error)).toLowerCase()` (base-adapter.ts:268).
A missing or empty (falsy) `message` falls back to `String(error)`. -/
def retryMessage (e : FtpError) : String :=
  lowerStr (match e.message with
    | some m => if m = "" then e.str else m
    | none => e.str)

/-- The fixed vocabulary of `isRetryableError` (base-adapter.ts:270-282). -/
def retryableErrors : List String :=
  ["timeout", "connection", "network", "econnreset", "econnrefused",
   "etimedout", "socket", "temporary", "503", "502", "504"]

/-- `BaseAdapter.isRetryableError` (base-adapter.ts:267-285). -/
def isRetryableError (e : FtpError) : Bool :=
  retryableErrors.any (fun msg => includes (retryMessage e) msg)

/-- The message text classified by `shouldAttemptReconnect`:
`error.message?.toLowerCase() || ''` (base-adapter.ts:302). -/
def reconnectMessage (e : FtpError) : String :=
  match e.message with
  | some m => lowerStr m
  | none => ""

/-- The fixed signature list of `shouldAttemptReconnect`
(base-adapter.ts:303-310). -/
def reconnectableErrors : List String :=
  ["connection closed", "connection reset", "connection lost",
   "socket hang up", "timeout", "not connected"]

/-- `BaseAdapter.shouldAttemptReconnect` (base-adapter.ts:297-313). -/
def shouldAttemptReconnect (st : ConnState) (e : FtpError) : Bool :=
  if !st.autoReconnect || st.connected then false
  else reconnectableErrors.any (fun msg => includes (reconnectMessage e) msg)

/-- `BaseAdapter.executeWithReconnect` (base-adapter.ts:211-225).  `op1` and
`op2` are the outcomes of the first and (potential) second invocation of
`operation()`, and `reconnectOutcome` the outcome of `attemptReconnect()`.
Returns the call's outcome paired with whether a reconnect was attempted. -/
def executeWithReconnect {α : Type} (st : ConnState) (op1 : Except FtpError α)
    (reconnectOutcome : Except FtpError Unit) (op2 : Except FtpError α) :
    Except FtpError α × Bool :=
  match op1 with
  | .ok v => (.ok v, false)
  | .error e =>
    if shouldAttemptReconnect st e && st.hasConnectedBefore then
      match reconnectOutcome with
      | .ok _ => (op2, true)
      | .error re => (.error re, true)
    else (.error e, false)

/-- The `for (attempt = 0; attempt <= maxAttempts; attempt++)` loop of
`executeWithRetry` (base-adapter.ts:244-259).  `op n` is the outcome of the
`(n+1)`-st invocation of `operation()`; `remaining = maxAttempts - attempt` is
the number of attempts still allowed after the current one, so `remaining = 0`
is the `attempt === maxAttempts` case.  Returns the call's outcome, the number
of invocations made, and the delays slept between attempts, in order. -/
def retryLoop {α : Type} (op : Nat → Except FtpError α) (mult : Nat) :
    Nat → Nat → Nat → Except FtpError α × Nat × List Nat
  | attempt, _delay, 0 =>
    (match op attempt with
     | .ok v => .ok v
     | .error e => .error e, 1, [])
  | attempt, delay, r + 1 =>
    match op attempt with
    | .ok v => (.ok v, 1, [])
    | .error e =>
      if isRetryableError e then
        let rest := retryLoop op mult (attempt + 1) (delay * mult) r
        (rest.1, rest.2.1 + 1, delay :: rest.2.2)
      else (.error e, 1, [])

/-- `BaseAdapter.executeWithRetry` (base-adapter.ts:230-262).  The three
optional arguments model the `!== undefined` default resolution against the
state's policy fields. -/
def executeWithRetry {α : Type} (st : ConnState) (op : Nat → Except FtpError α)
    (maxRetriesArg retryDelayArg backoffMultiplierArg : Option Nat) :
    Except FtpError α × Nat × List Nat :=
  retryLoop op (backoffMultiplierArg.getD st.retryBackoffMultiplier) 0
    (retryDelayArg.getD st.retryDelay) (maxRetriesArg.getD st.maxRetries)

/-- The error thrown when reconnect attempts are exhausted
(base-adapter.ts:325-327), wrapping the last underlying error's message. -/
def reconnectExhaustedError (maxAttempts : Nat) (last : FtpError) : FtpError :=
  mkError ("Failed to reconnect after " ++ toString maxAttempts ++ " attempts: "
    ++ last.message.getD "undefined")

/-- The `for (attempt = 1; attempt <= maxReconnectAttempts; attempt++)` loop of
`attemptReconnect` (base-adapter.ts:318-333).  `connect n` is the outcome of
the n-th `connect()` call; `fuel = maxAttempts - attempt + 1` is the number of
iterations left, so `attempt === maxAttempts` is `fuel = 1`.  Returns the
outcome, the number of `connect()` calls, and the delays slept. -/
def reconnectLoop (connect : Nat → Except FtpError Unit) (delayBase maxAttempts : Nat) :
    Nat → Nat → Except FtpError Unit × Nat × List Nat
  | _attempt, 0 => (.ok (), 0, [])
  | attempt, fuel + 1 =>
    match connect attempt with
    | .ok _ => (.ok (), 1, [])
    | .error e =>
      if attempt == maxAttempts then
        (.error (reconnectExhaustedError maxAttempts e), 1, [])
      else
        let rest := reconnectLoop connect delayBase maxAttempts (attempt + 1) fuel
        (rest.1, rest.2.1 + 1, (delayBase * attempt) :: rest.2.2)

/-- `BaseAdapter.attemptReconnect` (base-adapter.ts:318-333). -/
def attemptReconnect (st : ConnState) (connect : Nat → Except FtpError Unit) :
    Except FtpError Unit × Nat × List Nat :=
  reconnectLoop connect st.reconnectDelay st.maxReconnectAttempts 1
    st.maxReconnectAttempts

/-- The two flag fields mutated by connect/disconnect. -/
structure ClientFlags where
  connected : Bool
  hasConnectedBefore : Bool
deriving DecidableEq, Repr

/-- `SftpAdapter.connect` (sftp-adapter.ts:29-60), with `prim` the outcome of
`this.client.connect(config)`.  On success sets `connected = true`; on failure
sets `connected = false` and throws a wrapped error.  It overrides
`BaseAdapter.connect` wholesale and never touches `hasConnectedBefore`. -/
def sftpConnect (st : ClientFlags) (prim : Except FtpError Unit) :
    ClientFlags × Except FtpError Unit :=
  match prim with
  | .ok _ => ({ st with connected := true }, .ok ())
  | .error e =>
    ({ st with connected := false },
     .error (mkError ("Failed to connect to SFTP server: " ++ e.message.getD "undefined")))

/-- `BaseAdapter.connect` (base-adapter.ts:186-189): `await this._connect()`
followed by `this.hasConnectedBefore = true`, for an arbitrary `_connect`
step `raw`. -/
def baseConnect (raw : ClientFlags → ClientFlags × Except FtpError Unit)
    (st : ClientFlags) : ClientFlags × Except FtpError Unit :=
  match raw st with
  | (st1, .ok _) => ({ st1 with hasConnectedBefore := true }, .ok ())
  | (st1, .error e) => (st1, .error e)

/-- `SftpAdapter.disconnect` (sftp-adapter.ts:65-74), with `prim` the outcome
of `this.client.end()`.  The `connected = false` assignment sits after the
`await this.client.end()` inside the `try`, so it is reached only when `end()`
succeeded; on failure the wrapped error is thrown with `connected` unchanged. -/
def sftpDisconnect (st : ClientFlags) (prim : Except FtpError Unit) :
    ClientFlags × Except FtpError Unit :=
  if st.connected then
    match prim with
    | .ok _ => ({ st with connected := false }, .ok ())
    | .error e =>
      (st, .error (mkError ("Failed to disconnect from SFTP server: "
        ++ e.message.getD "undefined")))
  else (st, .ok ())

instance {ε α : Type} [DecidableEq ε] [DecidableEq α] : DecidableEq (Except ε α)
  | .ok a, .ok b =>
    if h : a = b then .isTrue (by rw [h]) else .isFalse (by simp [h])
  | .ok _, .error _ => .isFalse (by simp)
  | .error _, .ok _ => .isFalse (by simp)
  | .error a, .error b =>
    if h : a = b then .isTrue (by rw [h]) else .isFalse (by simp [h])

inductive TransferType where
  | upload
  | download
deriving DecidableEq, Repr

/-- `IBatchTransfer`: one transfer request. -/
structure BatchTransfer where
  ttype : TransferType
  localPath : String
  remotePath : String
deriving DecidableEq, Repr

/-- `IBatchTransferResult` as built by `executeTransfer`. -/
structure BatchTransferResult where
  transfer : BatchTransfer
  success : Bool
  error : Option FtpError
  duration : Nat
deriving DecidableEq, Repr

/-- One batch item with its environment behaviour: the outcome of the
underlying `upload`/`download` call for this request, and the wall-clock ticks
the transfer takes (its `Date.now()` elapsed duration). -/
structure BatchItem where
  transfer : BatchTransfer
  outcome : Except FtpError Unit
  dur : Nat
deriving DecidableEq, Repr

/-- `BaseAdapter.executeTransfer` (base-adapter.ts:410-441): runs the item's
upload or download, catching any failure and recording it in the result. -/
def executeTransfer (it : BatchItem) : BatchTransferResult :=
  match it.outcome with
  | .ok _ => { transfer := it.transfer, success := true, error := none, duration := it.dur }
  | .error e => { transfer := it.transfer, success := false, error := some e, duration := it.dur }

/-- Smallest remaining completion time in a pool of in-flight tasks
(entries are `(item index, remaining ticks)`). -/
def minRem : List (Nat × Nat) → Nat
  | [] => 0
  | p :: ps => ps.foldl (fun m q => min m q.2) p.2

/-- One `await Promise.race(executing)` step (base-adapter.ts:399): time
advances to the earliest completion; the tasks completing then have run their
`.then` callbacks (pushing their result and splicing themselves out of
`executing`), the rest keep running with their remaining time reduced.
Returns the completed item indexes (in pool order) and the remaining pool. -/
def raceStep (pool : List (Nat × Nat)) : List Nat × List (Nat × Nat) :=
  ((pool.filter (fun p => p.2 == minRem pool)).map Prod.fst,
   (pool.filter (fun p => p.2 != minRem pool)).map (fun p => (p.1, p.2 - minRem pool)))

theorem minRemAux_attained (a : Nat) (l : List (Nat × Nat)) :
    l.foldl (fun m q => min m q.2) a = a ∨
      ∃ q ∈ l, l.foldl (fun m q => min m q.2) a = q.2 := by
  induction l generalizing a with
  | nil => exact Or.inl rfl
  | cons q t ih =>
    simp only [List.foldl_cons]
    rcases ih (min a q.2) with h | ⟨r, hr, hfold⟩
    · rcases Nat.le_total a q.2 with hle | hle
      · exact Or.inl (by rw [h, Nat.min_eq_left hle])
      · exact Or.inr ⟨q, List.mem_cons_self q t, by rw [h, Nat.min_eq_right hle]⟩
    · exact Or.inr ⟨r, List.mem_cons_of_mem q hr, hfold⟩

theorem minRem_attained (p : Nat × Nat) (ps : List (Nat × Nat)) :
    ∃ q ∈ p :: ps, q.2 = minRem (p :: ps) := by
  unfold minRem
  rcases minRemAux_attained p.2 ps with h | ⟨r, hr, hfold⟩
  · exact ⟨p, List.mem_cons_self p ps, h.symm⟩
  · exact ⟨r, List.mem_cons_of_mem p hr, hfold.symm⟩

theorem length_filter_lt_of_exists_not {α : Type} (l : List α) (p : α → Bool)
    (h : ∃ x ∈ l, p x = false) : (l.filter p).length < l.length := by
  induction l with
  | nil => rcases h with ⟨x, hx, _⟩; cases hx
  | cons a t ih =>
    rcases h with ⟨x, hx, hpx⟩
    rcases List.mem_cons.mp hx with rfl | hxt
    · simp only [List.filter_cons, hpx, Bool.false_eq_true, if_false]
      exact Nat.lt_succ_of_le (List.length_filter_le p t)
    · simp only [List.filter_cons]
      by_cases hpa : p a = true
      · simp only [hpa, if_true, List.length_cons]
        exact Nat.succ_lt_succ (ih ⟨x, hxt, hpx⟩)
      · simp only [hpa, if_false]
        exact Nat.lt_of_lt_of_le (ih ⟨x, hxt, hpx⟩) (Nat.le_succ _)

theorem raceStep_shrinks (pool : List (Nat × Nat)) (h : pool ≠ []) :
    (raceStep pool).2.length < pool.length := by
  match pool, h with
  | p :: ps, _ =>
    rcases minRem_attained p ps with ⟨q, hq, hqmin⟩
    simp only [raceStep, List.length_map]
    refine length_filter_lt_of_exists_not _ _ ⟨q, hq, ?_⟩
    simp [hqmin]

/-- `await Promise.all(executing)` after the admission loop
(base-adapter.ts:403): the remaining in-flight tasks run to completion; their
indexes are emitted in completion order. -/
def drainAll (pool : List (Nat × Nat)) : List Nat :=
  if h : pool = [] then []
  else
    have := raceStep_shrinks pool h
    (raceStep pool).1 ++ drainAll (raceStep pool).2
termination_by pool.length

/-- The `for (const transfer of transfers)` admission loop of `batchTransfer`
(base-adapter.ts:390-401), followed by the final `Promise.all`.  `pending` is
the not-yet-admitted `(index, duration)` list, `pool` the in-flight tasks,
`done` the indexes completed so far in completion order, and `peak` the largest
in-flight pool size observed so far.  The `(pool.length : Int) >= K` test is
the `executing.length >= maxConcurrency` admission check, with the JS number
`maxConcurrency` modelled as an integer. -/
def admitLoop (K : Int) : List (Nat × Nat) → List (Nat × Nat) → List Nat → Nat →
    List Nat × Nat
  | [], pool, done, peak => (done ++ drainAll pool, peak)
  | (i, d) :: rest, pool, done, peak =>
    let pool1 := pool ++ [(i, d)]
    let peak1 := max peak pool1.length
    if (pool1.length : Int) ≥ K then
      admitLoop K rest (raceStep pool1).2 (done ++ (raceStep pool1).1) peak1
    else
      admitLoop K rest pool1 done peak1

/-- The error thrown by `ensureConnected` (base-adapter.ts:446-450). -/
def notConnectedError : FtpError :=
  mkError "Not connected to server. Call connect() first."

/-- The completion order of item indexes produced by a connected
`batchTransfer` run. -/
def batchOrder (items : List BatchItem) (K : Int) : List Nat :=
  (admitLoop K ((List.range items.length).zip (items.map (fun it => it.dur))) [] [] 0).1

/-- The largest number of simultaneously in-flight tasks during a connected
`batchTransfer` run. -/
def batchPeak (items : List BatchItem) (K : Int) : Nat :=
  (admitLoop K ((List.range items.length).zip (items.map (fun it => it.dur))) [] [] 0).2

/-- `BaseAdapter.batchTransfer` (base-adapter.ts:381-405): `ensureConnected`,
then the bounded admission loop; the `results` array receives one
`executeTransfer` result per item, in completion order. -/
def batchTransfer (connected : Bool) (items : List BatchItem) (K : Int) :
    Except FtpError (List BatchTransferResult) :=
  if !connected then .error notConnectedError
  else
    .ok ((batchOrder items K).filterMap
      (fun i => (items.get? i).map executeTransfer))

/-! ## Claim theorems -/

/-- C10: for every request list (the empty list included), `batchTransfer`
throws `Not connected to server. Call connect() first.` whenever the client is
not connected, and the empty-list call on a connected client returns the empty
result array. -/
theorem batchTransfer_requires_connection (items : List BatchItem) (K : Int) :
    batchTransfer false items K = .error notConnectedError ∧
      batchTransfer true [] K = .ok [] := by
  constructor
  · rfl
  · simp [batchTransfer, batchOrder, admitLoop, drainAll]

/-- C9 as stated is false: when `disconnect()` finds the client connected and
the close primitive `client.end()` throws, the `connected = false` assignment
inside the `try` block is skipped, so the manager still reports
`connected = true`. -/
theorem sftpDisconnect_close_failure_keeps_connected :
    (sftpDisconnect ⟨true, true⟩ (.error (mkError "end failed"))).1.connected = true := by
  rfl

/-- C9 amended: after `disconnect()` on a connected client, `connected` is
false exactly when the close primitive succeeded; a close failure propagates a
wrapped error and leaves `connected = true`.  On a client that is not
connected, `disconnect()` is a no-op. -/
theorem sftpDisconnect_spec (b : Bool) (prim : Except FtpError Unit) :
    sftpDisconnect ⟨true, b⟩ (.ok ()) = (⟨false, b⟩, .ok ()) ∧
    (∀ e, (sftpDisconnect ⟨true, b⟩ (.error e)).1.connected = true ∧
      (sftpDisconnect ⟨true, b⟩ (.error e)).2 =
        .error (mkError ("Failed to disconnect from SFTP server: "
          ++ e.message.getD "undefined"))) ∧
    sftpDisconnect ⟨false, b⟩ prim = (⟨false, b⟩, .ok ()) := by
  refine ⟨rfl, fun e => ⟨rfl, rfl⟩, ?_⟩
  simp [sftpDisconnect]

/-- C5 as stated is false: `shouldAttemptReconnect` itself never consults
`hasConnectedBefore`.  With `autoReconnect = true`, `connected = false`,
`hasConnectedBefore = false` and a reconnect-eligible message, it returns
`true`. -/
theorem shouldAttemptReconnect_ignores_hasConnectedBefore :
    shouldAttemptReconnect
      ⟨false, false, true, 3, 1000, 3, 1000, 2⟩ (mkError "timeout") = true := by
  decide

/-- C5 amended: the `hasConnectedBefore` guard lives at the call site, not in
`shouldAttemptReconnect`: whenever `hasConnectedBefore` is false,
`executeWithReconnect` attempts no reconnect and returns the first operation
outcome unchanged, regardless of the error's message and of `autoReconnect`. -/
theorem executeWithReconnect_no_reconnect_before_first_connect {α : Type}
    (st : ConnState) (op1 : Except FtpError α) (recon : Except FtpError Unit)
    (op2 : Except FtpError α) (h : st.hasConnectedBefore = false) :
    executeWithReconnect st op1 recon op2 = (op1, false) := by
  unfold executeWithReconnect
  cases op1 with
  | ok v => rfl
  | error e => simp [h]

/-- Witness for the amended C5: the never-connected scenario of the spec
(`autoReconnect = true`, operation fails with `socket hang up`): no reconnect
is attempted and the original error propagates. -/
theorem executeWithReconnect_no_reconnect_before_first_connect_witness :
    (⟨false, false, true, 3, 1000, 3, 1000, 2⟩ : ConnState).hasConnectedBefore = false ∧
    executeWithReconnect (⟨false, false, true, 3, 1000, 3, 1000, 2⟩ : ConnState)
      (.error (mkError "socket hang up")) (.ok ()) (.ok (42 : Nat)) =
      (.error (mkError "socket hang up"), false) :=
  ⟨rfl, executeWithReconnect_no_reconnect_before_first_connect _ _ _ _ rfl⟩

/-- C7: the code contradicts itself.  `BaseAdapter.connect` sets
`hasConnectedBefore` after a successful `_connect`, but `SftpAdapter.connect`
overrides `connect` wholesale (and never implements the abstract `_connect`
hook), so a successful SFTP `connect()` sets `connected` yet leaves
`hasConnectedBefore` false forever. -/
theorem sftpConnect_never_sets_hasConnectedBefore :
    (sftpConnect ⟨false, false⟩ (.ok ())).2 = .ok () ∧
    (sftpConnect ⟨false, false⟩ (.ok ())).1.connected = true ∧
    (sftpConnect ⟨false, false⟩ (.ok ())).1.hasConnectedBefore = false ∧
    (baseConnect (fun s => sftpConnect s (.ok ())) ⟨false, false⟩).1.hasConnectedBefore
      = true := by
  exact ⟨rfl, rfl, rfl, rfl⟩

/-- C8 as stated is false: an explicitly passed non-positive `maxConcurrency`
is used as-is, not replaced by the default 5.  On two unit-duration uploads the
peak in-flight count is 1 under `maxConcurrency = 0` but 2 under the default
5 — the engine does not behave as if 5 had been supplied. -/
theorem nonpositive_concurrency_not_defaulted :
    batchPeak [⟨⟨.upload, "a", "b"⟩, .ok (), 1⟩, ⟨⟨.upload, "c", "d"⟩, .ok (), 1⟩] 0 = 1 ∧
    batchPeak [⟨⟨.upload, "a", "b"⟩, .ok (), 1⟩, ⟨⟨.upload, "c", "d"⟩, .ok (), 1⟩] 5 = 2 := by
  exact ⟨rfl, rfl⟩

theorem raceStep_singleton (i d : Nat) : raceStep [(i, d)] = ([i], []) := by
  simp [raceStep, minRem]

theorem admitLoop_nonpos_peak (K : Int) (hK : K ≤ 0) :
    ∀ (pending : List (Nat × Nat)) (done : List Nat) (peak : Nat),
      (admitLoop K pending [] done peak).2 ≤ max peak 1 := by
  intro pending
  induction pending with
  | nil => intro done peak; exact Nat.le_max_left _ _
  | cons hd rest ih =>
    intro done peak
    obtain ⟨i, d⟩ := hd
    have step : admitLoop K ((i, d) :: rest) [] done peak
        = admitLoop K rest [] (done ++ [i]) (max peak 1) := by
      simp only [admitLoop, List.nil_append, List.length_cons, List.length_nil,
        raceStep_singleton]
      rw [if_pos (by omega)]
    rw [step]
    exact le_trans (ih (done ++ [i]) (max peak 1)) (by simp)

/-- C8 amended: when `maxConcurrency` is left unspecified, the parameter
default 5 applies; but a non-positive value passed explicitly is used as the
admission threshold, making the pool-size check always true, so the batch
degenerates to serial execution: at most one task is ever in flight. -/
theorem nonpositive_concurrency_serializes (items : List BatchItem) (K : Int)
    (hK : K ≤ 0) : batchPeak items K ≤ 1 := by
  have := admitLoop_nonpos_peak K hK
    ((List.range items.length).zip (items.map (fun it => it.dur))) [] 0
  simpa [batchPeak] using this

/-- Witness for the amended C8 at `maxConcurrency = 0` on two uploads. -/
theorem nonpositive_concurrency_serializes_witness :
    (0 : Int) ≤ 0 ∧
    batchPeak [⟨⟨.upload, "a", "b"⟩, .ok (), 1⟩, ⟨⟨.upload, "c", "d"⟩, .ok (), 2⟩] 0 ≤ 1 :=
  ⟨le_refl 0, nonpositive_concurrency_serializes _ 0 (le_refl 0)⟩

theorem includes_of_needle_within {hay n1 n2 : String}
    (h12 : n2.toList <:+: n1.toList) (h : includes hay n1 = true) :
    includes hay n2 = true := by
  unfold includes at h ⊢
  exact decide_eq_true (h12.trans (of_decide_eq_true h))

/-- C6 as stated is false: an error whose message is exactly `not connected`
matches the reconnect-eligible signature list, but none of the retry
vocabulary (which contains `connection`, not `connected`), so
`shouldAttemptReconnect` classifies it reconnect-eligible while
`isRetryableError` returns false. -/
theorem notConnected_reconnect_eligible_but_not_retryable :
    shouldAttemptReconnect ⟨false, true, true, 3, 1000, 3, 1000, 2⟩
      (mkError "not connected") = true ∧
    isRetryableError (mkError "not connected") = false := by
  decide

/-- C6 amended: the superset relation holds for five of the six
reconnect-eligible signatures — every error whose (present, nonempty) message
matches `connection closed`, `connection reset`, `connection lost`,
`socket hang up` or `timeout` is also retryable; the sixth signature,
`not connected`, is the exception. -/
theorem reconnect_signatures_mostly_retryable (e : FtpError) (m sig : String)
    (hm : e.message = some m) (hne : m ≠ "")
    (hsig : sig ∈ ["connection closed", "connection reset", "connection lost",
      "socket hang up", "timeout"])
    (hmatch : includes (lowerStr m) sig = true) :
    isRetryableError e = true := by
  have hmsg : retryMessage e = lowerStr m := by
    simp [retryMessage, hm, hne]
  have key : ∃ w ∈ retryableErrors, includes (lowerStr m) w = true := by
    simp only [List.mem_cons] at hsig
    rcases hsig with rfl | rfl | rfl | rfl | rfl | h
    · exact ⟨"connection", by decide, includes_of_needle_within (by decide) hmatch⟩
    · exact ⟨"connection", by decide, includes_of_needle_within (by decide) hmatch⟩
    · exact ⟨"connection", by decide, includes_of_needle_within (by decide) hmatch⟩
    · exact ⟨"socket", by decide, includes_of_needle_within (by decide) hmatch⟩
    · exact ⟨"timeout", by decide, includes_of_needle_within (by decide) hmatch⟩
    · exact absurd h (List.not_mem_nil sig)
  rcases key with ⟨w, hw, hincl⟩
  unfold isRetryableError
  rw [hmsg]
  exact List.any_eq_true.mpr ⟨w, hw, hincl⟩

/-- Witness for the amended C6: a `connection reset` error is retryable. -/
theorem reconnect_signatures_mostly_retryable_witness :
    (mkError "connection reset").message = some "connection reset" ∧
    isRetryableError (mkError "connection reset") = true :=
  ⟨rfl, reconnect_signatures_mostly_retryable (mkError "connection reset")
    "connection reset" "connection reset" rfl (by decide) (by decide) (by decide)⟩

theorem range_map_geom_cons (d m n : Nat) :
    (List.range (n + 1)).map (fun i => d * m ^ i)
      = d :: (List.range n).map (fun i => d * m * m ^ i) := by
  rw [List.range_succ_eq_map]
  simp only [List.map_cons, pow_zero, mul_one, List.map_map]
  congr 1
  apply List.map_congr_left
  intro i _
  simp only [Function.comp, Nat.succ_eq_add_one, pow_succ]
  ring

theorem range_map_affine_cons (c a n : Nat) :
    (List.range (n + 1)).map (fun i => c * (a + i))
      = c * a :: (List.range n).map (fun i => c * (a + 1 + i)) := by
  rw [List.range_succ_eq_map]
  simp only [List.map_cons, Nat.add_zero, List.map_map]
  congr 1
  apply List.map_congr_left
  intro i _
  simp only [Function.comp, Nat.succ_eq_add_one]
  ring

theorem retryLoop_eventual_success {α : Type} (op : Nat → Except FtpError α)
    (mult : Nat) (v : α) :
    ∀ (k attempt delay remaining : Nat), k ≤ remaining →
      (∀ i, i < k → ∃ e, op (attempt + i) = .error e ∧ isRetryableError e = true) →
      op (attempt + k) = .ok v →
      retryLoop op mult attempt delay remaining =
        (.ok v, k + 1, (List.range k).map (fun i => delay * mult ^ i)) := by
  intro k
  induction k with
  | zero =>
    intro attempt delay remaining _ _ hok
    rw [Nat.add_zero] at hok
    cases remaining with
    | zero => simp [retryLoop, hok]
    | succ r => simp [retryLoop, hok]
  | succ k ih =>
    intro attempt delay remaining hk hfail hok
    obtain ⟨r, rfl⟩ : ∃ r, remaining = r + 1 := ⟨remaining - 1, by omega⟩
    obtain ⟨e, he, hretry⟩ := hfail 0 (Nat.succ_pos k)
    rw [Nat.add_zero] at he
    have hrest := ih (attempt + 1) (delay * mult) r (by omega)
      (fun i hi => by
        obtain ⟨e', he', hr'⟩ := hfail (i + 1) (by omega)
        refine ⟨e', ?_, hr'⟩
        rw [show attempt + 1 + i = attempt + (i + 1) by omega]
        exact he')
      (by rw [show attempt + 1 + k = attempt + (k + 1) by omega]; exact hok)
    simp only [retryLoop, he, hretry, if_true, hrest, range_map_geom_cons]

/-- C3: if the operation fails with retryable errors on its first k calls and
succeeds on call k+1, with k ≤ maxRetries, then `executeWithRetry` (run with
the state's policy defaults) returns the success value, invokes the operation
exactly k+1 times (which is at most maxRetries+1), and sleeps the exponential
backoff delays d0, d0·m, d0·m², … between consecutive attempts. -/
theorem executeWithRetry_eventual_success {α : Type} (st : ConnState)
    (op : Nat → Except FtpError α) (k : Nat) (v : α)
    (hk : k ≤ st.maxRetries)
    (hfail : ∀ i, i < k → ∃ e, op i = .error e ∧ isRetryableError e = true)
    (hok : op k = .ok v) :
    executeWithRetry st op none none none =
      (.ok v, k + 1,
       (List.range k).map (fun i => st.retryDelay * st.retryBackoffMultiplier ^ i))
      ∧ k + 1 ≤ st.maxRetries + 1 := by
  refine ⟨?_, by omega⟩
  unfold executeWithRetry
  simp only [Option.getD_none]
  exact retryLoop_eventual_success op _ v k 0 _ _ hk (by simpa using hfail)
    (by simpa using hok)

/-- Witness for C3: two `timeout` failures then success, with
`retryDelay = 100` and multiplier 2: value returned, 3 invocations,
delays 100 then 200. -/
theorem executeWithRetry_eventual_success_witness :
    (2 : Nat) ≤ (⟨true, true, true, 3, 1000, 3, 100, 2⟩ : ConnState).maxRetries ∧
    executeWithRetry ⟨true, true, true, 3, 1000, 3, 100, 2⟩
      (fun n => if n < 2 then .error (mkError "timeout") else .ok (7 : Nat))
      none none none = (.ok 7, 3, [100, 200]) := by
  refine ⟨by decide, ?_⟩
  have h := executeWithRetry_eventual_success ⟨true, true, true, 3, 1000, 3, 100, 2⟩
    (fun n => if n < 2 then .error (mkError "timeout") else .ok (7 : Nat)) 2 7
    (by decide)
    (fun i hi => ⟨mkError "timeout", by interval_cases i <;> exact ⟨rfl, by decide⟩⟩)
    rfl
  rw [h.1]
  rfl

theorem reconnectLoop_calls_le (connect : Nat → Except FtpError Unit)
    (delayBase maxA : Nat) :
    ∀ (fuel attempt : Nat),
      (reconnectLoop connect delayBase maxA attempt fuel).2.1 ≤ fuel := by
  intro fuel
  induction fuel with
  | zero => intro attempt; simp [reconnectLoop]
  | succ f ih =>
    intro attempt
    simp only [reconnectLoop]
    cases hc : connect attempt with
    | ok _ => simp
    | error e =>
      by_cases hbeq : (attempt == maxA) = true
      · simp [hbeq]
      · simp only [Bool.not_eq_true] at hbeq
        simp only [hbeq, Bool.false_eq_true, if_false]
        have := ih (attempt + 1)
        omega

theorem reconnectLoop_all_fail (connect : Nat → Except FtpError Unit)
    (delayBase maxA : Nat) (err : Nat → FtpError)
    (hfail : ∀ j, connect j = .error (err j)) :
    ∀ (fuel attempt : Nat), attempt + fuel = maxA + 1 → 1 ≤ fuel →
      reconnectLoop connect delayBase maxA attempt fuel =
        (.error (reconnectExhaustedError maxA (err maxA)), fuel,
         (List.range (fuel - 1)).map (fun i => delayBase * (attempt + i))) := by
  intro fuel
  induction fuel with
  | zero => intro attempt _ h; omega
  | succ f ih =>
    intro attempt hsum _
    by_cases hA : attempt = maxA
    · have hf : f = 0 := by omega
      subst hf
      subst hA
      simp [reconnectLoop, hfail attempt]
    · have hne : (attempt == maxA) = false := by simp [hA]
      have hf1 : 1 ≤ f := by omega
      have hrest := ih (attempt + 1) (by omega) hf1
      simp only [reconnectLoop, hfail attempt, hne, Bool.false_eq_true, if_false,
        hrest, Nat.succ_sub_one, Prod.mk.injEq]
      refine ⟨trivial, trivial, ?_⟩
      obtain ⟨f', rfl⟩ : ∃ f', f = f' + 1 := ⟨f - 1, by omega⟩
      rw [range_map_affine_cons]
      simp

theorem reconnectLoop_first_success (connect : Nat → Except FtpError Unit)
    (delayBase maxA j : Nat) (hok : connect j = .ok ()) :
    ∀ (fuel attempt : Nat), attempt + fuel = maxA + 1 → attempt ≤ j → j ≤ maxA →
      (∀ i, attempt ≤ i → i < j → ∃ e, connect i = .error e) →
      reconnectLoop connect delayBase maxA attempt fuel =
        (.ok (), j - attempt + 1,
         (List.range (j - attempt)).map (fun i => delayBase * (attempt + i))) := by
  intro fuel
  induction fuel with
  | zero => intro attempt h1 h2 h3 _; omega
  | succ f ih =>
    intro attempt hsum hle hjmax hfail
    by_cases haj : attempt = j
    · subst haj
      simp [reconnectLoop, hok]
    · have hlt : attempt < j := by omega
      obtain ⟨e, he⟩ := hfail attempt (le_refl _) hlt
      have hne : (attempt == maxA) = false := by
        simp only [beq_eq_false_iff_ne, ne_eq]
        omega
      have hrest := ih (attempt + 1) (by omega) (by omega) hjmax
        (fun i h1 h2 => hfail i (by omega) h2)
      simp only [reconnectLoop, he, hne, Bool.false_eq_true, if_false, hrest,
        Prod.mk.injEq]
      refine ⟨trivial, by omega, ?_⟩
      obtain ⟨n, hn⟩ : ∃ n, j - attempt = n + 1 := ⟨j - attempt - 1, by omega⟩
      rw [hn, range_map_affine_cons]
      have heq : j - (attempt + 1) = n := by omega
      rw [heq]

/-- C4: `attemptReconnect` makes at most `maxReconnectAttempts` connect()
calls; if every attempt fails it throws the reconnect-exhausted error wrapping
the last underlying error after exactly `maxReconnectAttempts` calls, sleeping
`reconnectDelay * attemptNumber` (linear backoff) between attempts; and it
returns as soon as a connect() succeeds, having slept the same linear backoff
delays before it. -/
theorem attemptReconnect_spec (st : ConnState)
    (connect : Nat → Except FtpError Unit) (hmax : 1 ≤ st.maxReconnectAttempts) :
    (attemptReconnect st connect).2.1 ≤ st.maxReconnectAttempts ∧
    (∀ err : Nat → FtpError, (∀ j, connect j = .error (err j)) →
      attemptReconnect st connect =
        (.error (reconnectExhaustedError st.maxReconnectAttempts
            (err st.maxReconnectAttempts)),
         st.maxReconnectAttempts,
         (List.range (st.maxReconnectAttempts - 1)).map
           (fun i => st.reconnectDelay * (1 + i)))) ∧
    (∀ j, 1 ≤ j → j ≤ st.maxReconnectAttempts →
      (∀ i, 1 ≤ i → i < j → ∃ e, connect i = .error e) → connect j = .ok () →
      attemptReconnect st connect =
        (.ok (), j,
         (List.range (j - 1)).map (fun i => st.reconnectDelay * (1 + i)))) := by
  refine ⟨reconnectLoop_calls_le connect _ _ _ _, ?_, ?_⟩
  · intro err hfail
    have h := reconnectLoop_all_fail connect st.reconnectDelay
      st.maxReconnectAttempts err hfail st.maxReconnectAttempts 1 (by omega) hmax
    simpa [attemptReconnect] using h
  · intro j hj1 hjmax hfail hok
    have h := reconnectLoop_first_success connect st.reconnectDelay
      st.maxReconnectAttempts j hok st.maxReconnectAttempts 1 (by omega) hj1 hjmax hfail
    have hcount : j - 1 + 1 = j := by omega
    rw [attemptReconnect, h, hcount]

/-- Witness for C4, the spec's exhaustion scenario: `maxReconnectAttempts = 3`,
every connect fails → exhausted error after exactly 3 calls, with linear
backoff sleeps 500 then 1000. -/
theorem attemptReconnect_spec_witness :
    1 ≤ (⟨false, true, true, 3, 500, 3, 1000, 2⟩ : ConnState).maxReconnectAttempts ∧
    attemptReconnect ⟨false, true, true, 3, 500, 3, 1000, 2⟩
        (fun _ => .error (mkError "refused")) =
      (.error (reconnectExhaustedError 3 (mkError "refused")), 3, [500, 1000]) := by
  refine ⟨by decide, ?_⟩
  have h := (attemptReconnect_spec ⟨false, true, true, 3, 500, 3, 1000, 2⟩
    (fun _ => .error (mkError "refused")) (by decide)).2.1
    (fun _ => mkError "refused") (fun _ => rfl)
  rw [h]
  rfl

theorem raceStep_perm (pool : List (Nat × Nat)) :
    ((raceStep pool).1 ++ (raceStep pool).2.map Prod.fst).Perm (pool.map Prod.fst) := by
  unfold raceStep
  simp only [List.map_map]
  have hcomp : (pool.filter (fun p => p.2 != minRem pool)).map
      (Prod.fst ∘ fun p => (p.1, p.2 - minRem pool))
      = (pool.filter (fun p => p.2 != minRem pool)).map Prod.fst := by
    apply List.map_congr_left
    intro p _
    rfl
  rw [hcomp, ← List.map_append]
  apply List.Perm.map
  have h := List.filter_append_perm (fun p => p.2 == minRem pool) pool
  simpa [bne] using h

theorem drainAll_perm_aux :
    ∀ (n : Nat) (pool : List (Nat × Nat)), pool.length ≤ n →
      (drainAll pool).Perm (pool.map Prod.fst) := by
  intro n
  induction n with
  | zero =>
    intro pool hlen
    have hnil : pool = [] := List.eq_nil_of_length_eq_zero (Nat.le_zero.mp hlen)
    subst hnil
    simp [drainAll]
  | succ n ih =>
    intro pool hlen
    by_cases h : pool = []
    · subst h
      simp [drainAll]
    · rw [drainAll, dif_neg h]
      have hshrink := raceStep_shrinks pool h
      have hrec := ih (raceStep pool).2 (by omega)
      exact (hrec.append_left _).trans (raceStep_perm pool)

theorem drainAll_perm (pool : List (Nat × Nat)) :
    (drainAll pool).Perm (pool.map Prod.fst) :=
  drainAll_perm_aux pool.length pool (le_refl _)

theorem admitLoop_order_perm (K : Int) :
    ∀ (pending pool : List (Nat × Nat)) (done : List Nat) (peak : Nat),
      ((admitLoop K pending pool done peak).1).Perm
        (done ++ pool.map Prod.fst ++ pending.map Prod.fst) := by
  intro pending
  induction pending with
  | nil =>
    intro pool done peak
    simp only [admitLoop, List.map_nil, List.append_nil]
    exact (drainAll_perm pool).append_left done
  | cons hd rest ih =>
    intro pool done peak
    obtain ⟨i, d⟩ := hd
    simp only [admitLoop]
    have hfinish :
        (done ++ ((pool ++ [(i, d)]).map Prod.fst ++ rest.map Prod.fst)).Perm
          (done ++ pool.map Prod.fst ++ ((i, d) :: rest).map Prod.fst) := by
      have heq : done ++ ((pool ++ [(i, d)]).map Prod.fst ++ rest.map Prod.fst)
          = done ++ pool.map Prod.fst ++ ((i, d) :: rest).map Prod.fst := by
        simp [List.append_assoc]
      rw [heq]
    by_cases hcond : (((pool ++ [(i, d)]).length : Nat) : Int) ≥ K
    · rw [if_pos hcond]
      refine (ih _ _ _).trans ?_
      have h1 : done ++ (raceStep (pool ++ [(i, d)])).1
            ++ (raceStep (pool ++ [(i, d)])).2.map Prod.fst ++ rest.map Prod.fst
          = done ++ (((raceStep (pool ++ [(i, d)])).1
              ++ (raceStep (pool ++ [(i, d)])).2.map Prod.fst) ++ rest.map Prod.fst) := by
        simp [List.append_assoc]
      rw [h1]
      refine (List.Perm.append_left done
        ((raceStep_perm (pool ++ [(i, d)])).append_right (rest.map Prod.fst))).trans ?_
      exact hfinish
    · rw [if_neg hcond]
      refine (ih _ _ _).trans ?_
      have heq2 : done ++ (pool ++ [(i, d)]).map Prod.fst ++ rest.map Prod.fst
          = done ++ pool.map Prod.fst ++ ((i, d) :: rest).map Prod.fst := by
        simp [List.append_assoc]
      rw [heq2]

theorem filterMap_get_range {α β : Type} (l : List α) (g : α → β) :
    (List.range l.length).filterMap (fun i => (l.get? i).map g) = l.map g := by
  induction l with
  | nil => simp
  | cons a t ih =>
    rw [List.length_cons, List.range_succ_eq_map]
    have hstep : (fun i => (List.get? (a :: t) i).map g) ∘ Nat.succ
        = fun i => (List.get? t i).map g := rfl
    rw [List.filterMap_cons, List.filterMap_map, hstep, ih]
    rfl

theorem batchOrder_perm (items : List BatchItem) (K : Int) :
    (batchOrder items K).Perm (List.range items.length) := by
  unfold batchOrder
  have h := admitLoop_order_perm K
    ((List.range items.length).zip (items.map (fun it => it.dur))) [] [] 0
  rw [List.map_fst_zip] at h
  · simpa using h
  · simp

theorem batchResults_perm (items : List BatchItem) (K : Int) :
    ((batchOrder items K).filterMap
      (fun i => (items.get? i).map executeTransfer)).Perm
      (items.map executeTransfer) := by
  have h := (batchOrder_perm items K).filterMap
    (fun i => (items.get? i).map executeTransfer)
  rwa [filterMap_get_range items executeTransfer] at h

/-- C1: on a connected client, `batchTransfer` never throws because of an
individual transfer failure: it returns a result list holding exactly one
`executeTransfer` outcome per request (as a permutation, since completion
order may differ from submission order), and every result is either a success
with no error or a failure with a populated error. -/
theorem batchTransfer_isolates_failures (items : List BatchItem) (K : Int) :
    ∃ rs, batchTransfer true items K = .ok rs
      ∧ rs.Perm (items.map executeTransfer)
      ∧ rs.length = items.length
      ∧ ∀ r ∈ rs, (r.success = true ∧ r.error = none)
          ∨ (r.success = false ∧ r.error.isSome = true) := by
  refine ⟨(batchOrder items K).filterMap (fun i => (items.get? i).map executeTransfer),
    rfl, batchResults_perm items K, ?_, ?_⟩
  · rw [(batchResults_perm items K).length_eq, List.length_map]
  · intro r hr
    have hmem : r ∈ items.map executeTransfer :=
      (batchResults_perm items K).mem_iff.mp hr
    obtain ⟨it, _, rfl⟩ := List.mem_map.mp hmem
    unfold executeTransfer
    cases it.outcome with
    | ok _ => exact Or.inl ⟨rfl, rfl⟩
    | error e => exact Or.inr ⟨rfl, rfl⟩

theorem admitLoop_peak_le (K : Int) :
    ∀ (pending pool : List (Nat × Nat)) (done : List Nat) (peak : Nat),
      ((pool.length : Nat) : Int) ≤ K - 1 → ((peak : Nat) : Int) ≤ K →
      (((admitLoop K pending pool done peak).2 : Nat) : Int) ≤ K := by
  intro pending
  induction pending with
  | nil => intro pool done peak _ hpeak; exact hpeak
  | cons hd rest ih =>
    intro pool done peak hpool hpeak
    obtain ⟨i, d⟩ := hd
    simp only [admitLoop]
    have hlen1 : (((pool ++ [(i, d)]).length : Nat) : Int) ≤ K := by
      rw [List.length_append]
      push_cast
      simp only [List.length_cons, List.length_nil]
      push_cast at hpool ⊢
      omega
    have hpeak1 : ((max peak (pool ++ [(i, d)]).length : Nat) : Int) ≤ K := by
      rw [Nat.cast_max]
      exact max_le hpeak hlen1
    by_cases hcond : (((pool ++ [(i, d)]).length : Nat) : Int) ≥ K
    · rw [if_pos hcond]
      apply ih _ _ _ _ hpeak1
      have hs := raceStep_shrinks (pool ++ [(i, d)]) (by simp)
      have hs' : (((raceStep (pool ++ [(i, d)])).2.length : Nat) : Int)
          < (((pool ++ [(i, d)]).length : Nat) : Int) := by exact_mod_cast hs
      omega
    · rw [if_neg hcond]
      apply ih _ _ _ _ hpeak1
      omega

/-- C2: for every request list and every concurrency cap K ≥ 1, a connected
`batchTransfer` run never has more than K tasks simultaneously in flight (the
peak in-flight pool size is at most K), and it returns exactly one result per
request. -/
theorem batchTransfer_bounded_concurrency (items : List BatchItem) (K : Int)
    (hK : 1 ≤ K) :
    ((batchPeak items K : Nat) : Int) ≤ K ∧
    ∃ rs, batchTransfer true items K = .ok rs ∧ rs.length = items.length := by
  constructor
  · unfold batchPeak
    apply admitLoop_peak_le
    · simp only [List.length_nil]
      push_cast
      omega
    · push_cast
      omega
  · exact ⟨_, rfl, by rw [(batchResults_perm items K).length_eq, List.length_map]⟩

/-- Witness for C2: three transfers of heterogeneous durations under cap 2
give peak in-flight at most 2 and three results. -/
theorem batchTransfer_bounded_concurrency_witness :
    (1 : Int) ≤ 2 ∧
    ((batchPeak [⟨⟨.upload, "a", "b"⟩, .ok (), 3⟩, ⟨⟨.download, "c", "d"⟩, .ok (), 1⟩,
        ⟨⟨.upload, "e", "f"⟩, .error (mkError "boom"), 2⟩] 2 : Nat) : Int) ≤ 2 ∧
    ∃ rs, batchTransfer true [⟨⟨.upload, "a", "b"⟩, .ok (), 3⟩,
        ⟨⟨.download, "c", "d"⟩, .ok (), 1⟩,
        ⟨⟨.upload, "e", "f"⟩, .error (mkError "boom"), 2⟩] 2 = .ok rs
      ∧ rs.length = 3 := by
  have h := batchTransfer_bounded_concurrency
    [⟨⟨.upload, "a", "b"⟩, .ok (), 3⟩, ⟨⟨.download, "c", "d"⟩, .ok (), 1⟩,
     ⟨⟨.upload, "e", "f"⟩, .error (mkError "boom"), 2⟩] 2 (by decide)
  exact ⟨by decide, h.1, h.2⟩

end SuperFtp
